import Mathlib

/-!
Verification of the Witmotion WT9011DCL IMU visualizer repository.

The Python sources are shallowly embedded here:
* byte buffers are `List Nat` (every byte below 256 where it matters);
* Python `float` arithmetic on angles is modelled exactly over `ℚ` (all the
  verified quantities are exact in the code's arithmetic);
* `struct.unpack` of a little-endian signed 16-bit word becomes `toInt16`;
* `decode_witmotion` is the scanning decoder shared (verbatim) by
  `arena.py`, `arena_alter_clinkz.py`, `witmotion_vtk_fixed.py` and
  `Qwen_python_20260212_ot0jub0wu.py`;
* `SensorData` is the shared-state object of `arena.py` (raw values,
  exponentially filtered values, calibration offsets, `new_data` flag); its
  stateful methods become state-passing functions;
* the bounded-queue producer callback of `arena_alter_clinkz.py` and the
  moving-average `SensorData` of the Qwen variant are embedded separately.
-/

/-- Little-endian signed 16-bit decoding of a byte pair, as performed by
Python's `struct.unpack` of two bytes: combine `lo + 256 * hi` and
reinterpret values at and above 32768 as negative. -/
def toInt16 (lo hi : Nat) : ℤ :=
  let u : Nat := lo + 256 * hi
  if u < 32768 then (u : ℤ) else (u : ℤ) - 65536

/-- The Witmotion angle conversion applied to a raw signed 16-bit value:
`raw / 32768.0 * 180.0` (modelled exactly over `ℚ`). -/
def wit_angle (raw : ℤ) : ℚ :=
  (raw : ℚ) / 32768 * 180

/-- The angle obtained from a little-endian byte pair of the payload. -/
def angleOf (lo hi : Nat) : ℚ :=
  wit_angle (toInt16 lo hi)

/-- `decode_witmotion(data)` of `arena.py` (identical in the other variants):
scan the buffer from offset 0 upward; at the first position `i` with
`data[i] == 0x55`, `data[i+1] == 0x61` and at least 8 bytes available from
`i` (the Python loop bound `range(len(data) - 7)`), unpack the three
little-endian int16 payload words and scale each by `/ 32768 * 180`;
if no such position exists, return `none` (Python `None`). -/
def decode_witmotion : List Nat → Option (ℚ × ℚ × ℚ)
  | b0 :: b1 :: rlo :: rhi :: plo :: phi :: ylo :: yhi :: tail =>
    if b0 = 0x55 ∧ b1 = 0x61 then
      some (angleOf rlo rhi, angleOf plo phi, angleOf ylo yhi)
    else
      decode_witmotion (b1 :: rlo :: rhi :: plo :: phi :: ylo :: yhi :: tail)
  | _ => none

/-- Low byte of the little-endian two's-complement encoding of an int16. -/
def byteLo (v : ℤ) : Nat := ((v % 65536) % 256).toNat

/-- High byte of the little-endian two's-complement encoding of an int16. -/
def byteHi (v : ℤ) : Nat := ((v % 65536) / 256).toNat

theorem toInt16_byteLo_byteHi (v : ℤ) (h1 : -32768 ≤ v) (h2 : v ≤ 32767) :
    toInt16 (byteLo v) (byteHi v) = v := by
  unfold toInt16 byteLo byteHi
  simp only []
  omega

theorem byteLo_lt (v : ℤ) : byteLo v < 256 := by
  unfold byteLo; omega

theorem byteHi_lt (v : ℤ) : byteHi v < 256 := by
  unfold byteHi; omega

/-- C1: for every 8-byte buffer `[0x55, 0x61, r_lo, r_hi, p_lo, p_hi, y_lo,
y_hi]` whose payload pairs encode the signed 16-bit integers `r`, `p`, `y`
little-endian, `decode_witmotion` returns exactly
`(r/32768*180, p/32768*180, y/32768*180)`; in particular the known vector
with roll bytes `0x00 0x40`, pitch bytes `0x00 0x00` and yaw bytes
`0x00 0xC0` decodes to `(90, 0, -90)`. -/
theorem c1_decode_frame :
    (∀ r p y : ℤ, -32768 ≤ r → r ≤ 32767 → -32768 ≤ p → p ≤ 32767 →
      -32768 ≤ y → y ≤ 32767 →
      decode_witmotion
        [0x55, 0x61, byteLo r, byteHi r, byteLo p, byteHi p, byteLo y, byteHi y] =
        some ((r : ℚ) / 32768 * 180, (p : ℚ) / 32768 * 180, (y : ℚ) / 32768 * 180)) ∧
    decode_witmotion [0x55, 0x61, 0x00, 0x40, 0x00, 0x00, 0x00, 0xC0] =
      some (90, 0, -90) := by
  constructor
  · intro r p y hr1 hr2 hp1 hp2 hy1 hy2
    rw [decode_witmotion]
    rw [if_pos ⟨rfl, rfl⟩]
    rw [angleOf, angleOf, angleOf,
      toInt16_byteLo_byteHi r hr1 hr2, toInt16_byteLo_byteHi p hp1 hp2,
      toInt16_byteLo_byteHi y hy1 hy2]
    rfl
  · rw [decode_witmotion, if_pos ⟨rfl, rfl⟩]
    norm_num [angleOf, toInt16, wit_angle]

/-- Witness for C1: instantiating the universal part at the known vector
`r = 16384`, `p = 0`, `y = -16384` reproduces the expected decode result. -/
theorem c1_decode_frame_witness :
    decode_witmotion [0x55, 0x61, 0x00, 0x40, 0x00, 0x00, 0x00, 0xC0] =
      some ((16384 : ℚ) / 32768 * 180, (0 : ℚ) / 32768 * 180,
            ((-16384 : ℤ) : ℚ) / 32768 * 180) := by
  have h := c1_decode_frame.1 16384 0 (-16384)
    (by decide) (by decide) (by decide) (by decide) (by decide) (by decide)
  have hlo1 : byteLo 16384 = 0x00 := by decide
  have hhi1 : byteHi 16384 = 0x40 := by decide
  have hlo2 : byteLo 0 = 0x00 := by decide
  have hhi2 : byteHi 0 = 0x00 := by decide
  have hlo3 : byteLo (-16384) = 0x00 := by decide
  have hhi3 : byteHi (-16384) = 0xC0 := by decide
  rw [hlo1, hhi1, hlo2, hhi2, hlo3, hhi3] at h
  exact h

/-- The scan condition of the Python loop at position `i`: header bytes
`0x55 0x61` at `i`, `i+1` and a complete 8-byte frame available. -/
def validAt (data : List Nat) (i : Nat) : Prop :=
  data.getD i 0 = 0x55 ∧ data.getD (i + 1) 0 = 0x61 ∧ i + 8 ≤ data.length

instance (data : List Nat) (i : Nat) : Decidable (validAt data i) := by
  unfold validAt; infer_instance

/-- The reading decoded from the frame starting at position `i`. -/
def frameAt (data : List Nat) (i : Nat) : Option (ℚ × ℚ × ℚ) :=
  some (angleOf (data.getD (i + 2) 0) (data.getD (i + 3) 0),
        angleOf (data.getD (i + 4) 0) (data.getD (i + 5) 0),
        angleOf (data.getD (i + 6) 0) (data.getD (i + 7) 0))

theorem validAt_cons_succ (b : Nat) (l : List Nat) (i : Nat) :
    validAt (b :: l) (i + 1) ↔ validAt l i := by
  unfold validAt
  rw [List.getD_cons_succ, List.getD_cons_succ, List.length_cons]
  constructor
  · rintro ⟨h1, h2, h3⟩; exact ⟨h1, h2, by omega⟩
  · rintro ⟨h1, h2, h3⟩; exact ⟨h1, h2, by omega⟩

theorem frameAt_cons_succ (b : Nat) (l : List Nat) (i : Nat) :
    frameAt (b :: l) (i + 1) = frameAt l i := by
  unfold frameAt
  rw [show i + 1 + 2 = i + 2 + 1 by omega, show i + 1 + 3 = i + 3 + 1 by omega,
      show i + 1 + 4 = i + 4 + 1 by omega, show i + 1 + 5 = i + 5 + 1 by omega,
      show i + 1 + 6 = i + 6 + 1 by omega, show i + 1 + 7 = i + 7 + 1 by omega]
  simp only [List.getD_cons_succ]

theorem decode_witmotion_short (data : List Nat) (h : data.length < 8) :
    decode_witmotion data = none := by
  rcases data with _ | ⟨a, _ | ⟨b, _ | ⟨c, _ | ⟨d, _ | ⟨e, _ | ⟨f, _ | ⟨g, rest⟩⟩⟩⟩⟩⟩⟩ <;>
    first
      | rfl
      | (rcases rest with _ | ⟨x, rest'⟩
         · rfl
         · simp only [List.length_cons] at h; omega)

theorem decode_witmotion_scan (data : List Nat) (i : Nat)
    (hv : validAt data i) (hmin : ∀ j, j < i → ¬ validAt data j) :
    decode_witmotion data = frameAt data i := by
  induction data generalizing i with
  | nil =>
    exfalso
    obtain ⟨-, -, h3⟩ := hv
    simp only [List.length_nil] at h3
    omega
  | cons b0 rest ih =>
    cases i with
    | zero =>
      obtain ⟨h0, h1, hlen⟩ := hv
      rw [List.getD_cons_zero] at h0
      rw [List.getD_cons_succ] at h1
      simp only [List.length_cons] at hlen
      rcases rest with _ | ⟨b1, _ | ⟨rlo, _ | ⟨rhi, _ | ⟨plo, _ | ⟨phi, _ | ⟨ylo, _ | ⟨yhi, tail⟩⟩⟩⟩⟩⟩⟩ <;>
        (try (simp only [List.length_nil, List.length_cons] at hlen; omega))
      rw [List.getD_cons_zero] at h1
      subst h0 h1
      rw [decode_witmotion, if_pos ⟨rfl, rfl⟩]
      rfl
    | succ j =>
      obtain ⟨h0, h1, hlen⟩ := hv
      simp only [List.length_cons] at hlen
      have hrest : validAt rest j :=
        (validAt_cons_succ b0 rest j).mp ⟨h0, h1, by simp only [List.length_cons]; omega⟩
      have hminr : ∀ k, k < j → ¬ validAt rest k := by
        intro k hk hvk
        exact hmin (k + 1) (by omega) ((validAt_cons_succ b0 rest k).mpr hvk)
      have hnot0 : ¬ validAt (b0 :: rest) 0 := hmin 0 (by omega)
      rcases rest with _ | ⟨b1, _ | ⟨rlo, _ | ⟨rhi, _ | ⟨plo, _ | ⟨phi, _ | ⟨ylo, _ | ⟨yhi, tail⟩⟩⟩⟩⟩⟩⟩ <;>
        (try (simp only [List.length_nil, List.length_cons] at hlen; omega))
      have hcond : ¬ (b0 = 0x55 ∧ b1 = 0x61) := by
        intro ⟨e0, e1⟩
        exact hnot0 ⟨by simp [e0], by simp [e1], by simp only [List.length_cons]; omega⟩
      rw [decode_witmotion, if_neg hcond]
      rw [frameAt_cons_succ]
      exact ih j hrest hminr

/-- C2: the decoder decodes the frame at the first position `i` with
`data[i] = 0x55`, `data[i+1] = 0x61` and `i + 8 ≤ len(data)`; consequently a
buffer with the garbage prefix `[0xAA, 0x00]` in front of a valid 8-byte
frame decodes exactly like the frame alone (and only the first matching
frame of a multi-frame buffer is decoded). -/
theorem c2_decode_scan :
    (∀ (data : List Nat) (i : Nat), validAt data i →
      (∀ j, j < i → ¬ validAt data j) → decode_witmotion data = frameAt data i) ∧
    (∀ rlo rhi plo phi ylo yhi : Nat,
      decode_witmotion ([0xAA, 0x00] ++ [0x55, 0x61, rlo, rhi, plo, phi, ylo, yhi]) =
      decode_witmotion [0x55, 0x61, rlo, rhi, plo, phi, ylo, yhi]) := by
  constructor
  · exact decode_witmotion_scan
  · intro rlo rhi plo phi ylo yhi
    rw [List.cons_append, List.cons_append, List.nil_append]
    rw [decode_witmotion, if_neg (by norm_num)]
    rw [decode_witmotion, if_neg (by norm_num)]

/-- Witness for C2: the scan characterization applied to the concrete
buffer `[0x55, 0x61, 0, 0, 0, 0, 0, 0]` at the first valid position 0. -/
theorem c2_decode_scan_witness :
    decode_witmotion [0x55, 0x61, 0, 0, 0, 0, 0, 0] =
      frameAt [0x55, 0x61, 0, 0, 0, 0, 0, 0] 0 :=
  c2_decode_scan.1 [0x55, 0x61, 0, 0, 0, 0, 0, 0] 0 (by decide)
    (fun j hj => absurd hj (by omega))

/-- C3: a buffer shorter than 8 bytes, and more generally any buffer with no
position holding a complete valid frame, decodes to `none` ("no reading");
the decoder is a total function on arbitrary byte buffers, so no exception
can propagate to the caller (the Python body wraps the scan in
`try/except: pass` and falls through to `return None`). -/
theorem c3_decode_no_reading :
    (∀ data : List Nat, data.length < 8 → decode_witmotion data = none) ∧
    (∀ data : List Nat, (∀ i, ¬ validAt data i) → decode_witmotion data = none) := by
  constructor
  · exact decode_witmotion_short
  · intro data h
    induction data with
    | nil => rfl
    | cons b0 rest ih =>
      by_cases hlen : rest.length < 7
      · exact decode_witmotion_short _ (by simp only [List.length_cons]; omega)
      · rcases rest with _ | ⟨b1, _ | ⟨rlo, _ | ⟨rhi, _ | ⟨plo, _ | ⟨phi, _ | ⟨ylo, _ | ⟨yhi, tail⟩⟩⟩⟩⟩⟩⟩ <;>
          (try (exfalso; apply hlen; simp only [List.length_nil, List.length_cons]; omega))
        have hcond : ¬ (b0 = 0x55 ∧ b1 = 0x61) := by
          intro ⟨e0, e1⟩
          exact h 0 ⟨by simp [e0], by simp [e1], by simp only [List.length_cons]; omega⟩
        rw [decode_witmotion, if_neg hcond]
        apply ih
        intro i hvi
        exact h (i + 1) ((validAt_cons_succ _ _ _).mpr hvi)

/-- Witness for C3: both parts applied to concrete buffers — the short
buffer `[0x55, 0x61, 1]` and the headerless buffer `[1, 2, 3, 4, 5, 6, 7, 8,
9, 10]` both yield `none`. -/
theorem c3_decode_no_reading_witness :
    decode_witmotion [0x55, 0x61, 1] = none ∧
    decode_witmotion [1, 2, 3, 4, 5, 6, 7, 8, 9, 10] = none :=
  ⟨c3_decode_no_reading.1 [0x55, 0x61, 1] (by decide),
   c3_decode_no_reading.2 [1, 2, 3, 4, 5, 6, 7, 8, 9, 10] (by
     intro i hv
     obtain ⟨h0, h1, hlen⟩ := hv
     simp only [List.length_cons, List.length_nil] at hlen
     have hi : i ≤ 2 := by omega
     interval_cases i <;> revert h0 <;> decide)⟩

/-- The smoothing coefficient `SMOOTHING_ALPHA = 0.3` of `arena.py`. -/
def SMOOTHING_ALPHA : ℚ := 3 / 10

/-- The shared-state object `SensorData` of `arena.py`: latest raw angles
(written by the BLE thread), exponentially filtered angles, calibration
offsets and the `new_data` flag. -/
structure SensorData where
  raw_roll : ℚ
  raw_pitch : ℚ
  raw_yaw : ℚ
  roll : ℚ
  pitch : ℚ
  yaw : ℚ
  offset_r : ℚ
  offset_p : ℚ
  offset_y : ℚ
  new_data : Bool

/-- `SensorData.__init__` of `arena.py`: every field starts at 0 / False. -/
def SensorData.init : SensorData :=
  { raw_roll := 0, raw_pitch := 0, raw_yaw := 0,
    roll := 0, pitch := 0, yaw := 0,
    offset_r := 0, offset_p := 0, offset_y := 0,
    new_data := false }

/-- `SensorData.update(r, p, y)` of `arena.py` — the `ingest` operation:
store the raw reading and raise the `new_data` flag. -/
def SensorData.update (s : SensorData) (r p y : ℚ) : SensorData :=
  { s with raw_roll := r, raw_pitch := p, raw_yaw := y, new_data := true }

/-- `SensorData.get_smoothed_angles()` of `arena.py`: advance the
exponential filter `new = old * (1 - alpha) + raw * alpha` on each axis,
subtract the calibration offsets, clear `new_data`, and return the
calibrated angles together with the updated state. -/
def SensorData.get_smoothed_angles (s : SensorData) : (ℚ × ℚ × ℚ) × SensorData :=
  let roll := s.roll * (1 - SMOOTHING_ALPHA) + s.raw_roll * SMOOTHING_ALPHA
  let pitch := s.pitch * (1 - SMOOTHING_ALPHA) + s.raw_pitch * SMOOTHING_ALPHA
  let yaw := s.yaw * (1 - SMOOTHING_ALPHA) + s.raw_yaw * SMOOTHING_ALPHA
  ((roll - s.offset_r, pitch - s.offset_p, yaw - s.offset_y),
   { s with roll := roll, pitch := pitch, yaw := yaw, new_data := false })

/-- `SensorData.calibrate()` of `arena.py`: capture the current raw reading
as the offset and snap the filtered values to the raw values. -/
def SensorData.calibrate (s : SensorData) : SensorData :=
  { s with offset_r := s.raw_roll, offset_p := s.raw_pitch, offset_y := s.raw_yaw,
           roll := s.raw_roll, pitch := s.raw_pitch, yaw := s.raw_yaw }

/-- The `sample` operation, the consumer-side logic of `update_view` in
`arena.py`: if `new_data` is set, run `get_smoothed_angles` and return its
reading; otherwise do nothing and report no update. -/
def SensorData.sample (s : SensorData) : Option (ℚ × ℚ × ℚ) × SensorData :=
  if s.new_data then
    let r := s.get_smoothed_angles
    (some r.1, r.2)
  else
    (none, s)

/-- C4: after any `sample`, a second `sample` with no intervening `update`
returns no reading and leaves the whole state unchanged; `sample` with the
`new_data` flag cleared is a no-op. -/
theorem c4_sample_noop :
    (∀ s : SensorData,
      (SensorData.sample (s.sample).2).1 = none ∧
      (SensorData.sample (s.sample).2).2 = (s.sample).2) ∧
    (∀ s : SensorData, s.new_data = false → s.sample = (none, s)) := by
  constructor
  · intro s
    by_cases h : s.new_data
    · simp [SensorData.sample, SensorData.get_smoothed_angles, h]
    · simp [SensorData.sample, h]
  · intro s h
    simp [SensorData.sample, h]

/-- Witness for C4: the no-op clause applied to the freshly initialized
state, whose `new_data` flag is `false`. -/
theorem c4_sample_noop_witness :
    SensorData.sample SensorData.init = (none, SensorData.init) :=
  c4_sample_noop.2 SensorData.init rfl

/-- C5: from every starting state, `update (10, 20, 30)`, `calibrate`,
`update (10, 20, 30)`, `sample` returns exactly `(0, 0, 0)` (so certainly
within any tolerance); and `calibrate` sets the offsets to the current raw
reading and snaps the filter state to the current raw reading. -/
theorem c5_calibrate_zeroes :
    (∀ s : SensorData,
      ((((s.update 10 20 30).calibrate).update 10 20 30).sample).1 =
        some (0, 0, 0)) ∧
    (∀ s : SensorData,
      s.calibrate.offset_r = s.raw_roll ∧ s.calibrate.offset_p = s.raw_pitch ∧
      s.calibrate.offset_y = s.raw_yaw ∧ s.calibrate.roll = s.raw_roll ∧
      s.calibrate.pitch = s.raw_pitch ∧ s.calibrate.yaw = s.raw_yaw) := by
  constructor
  · intro s
    simp [SensorData.update, SensorData.calibrate, SensorData.sample,
      SensorData.get_smoothed_angles, SMOOTHING_ALPHA]
    norm_num
  · intro s
    exact ⟨rfl, rfl, rfl, rfl, rfl, rfl⟩

/-- C8: `calibrate` is idempotent — a second call with nothing in between
reproduces exactly the state after the first call (offsets, filter values,
raw values and the `new_data` flag are all unchanged). -/
theorem c8_calibrate_idempotent :
    ∀ s : SensorData, s.calibrate.calibrate = s.calibrate := by
  intro s
  rfl

/-- One producer-consumer round of the convergence experiment: `update`
with the constant reading `(100, 0, 0)` followed by `sample`, keeping the
resulting state. -/
def convergeStep (s : SensorData) : SensorData :=
  ((s.update 100 0 0).sample).2

/-- The filter's roll value after `n` rounds of `convergeStep` from `s`. -/
def rollAt (s : SensorData) (n : Nat) : ℚ :=
  (convergeStep^[n] s).roll

theorem convergeStep_roll (t : SensorData) :
    (convergeStep t).roll = t.roll * (7 / 10) + 30 := by
  simp [convergeStep, SensorData.update, SensorData.sample,
    SensorData.get_smoothed_angles, SMOOTHING_ALPHA]
  ring

theorem rollAt_succ (s : SensorData) (n : Nat) :
    rollAt s (n + 1) = rollAt s n * (7 / 10) + 30 := by
  rw [rollAt, rollAt, Function.iterate_succ_apply', convergeStep_roll]

theorem rollAt_gap (s : SensorData) (n : Nat) :
    100 - rollAt s n = (7 / 10 : ℚ) ^ n * (100 - s.roll) := by
  induction n with
  | zero => simp [rollAt]
  | succ n ih =>
    rw [rollAt_succ, pow_succ]
    nlinarith [ih]

theorem rollAt_lt (s : SensorData) (h : s.roll < 100) (n : Nat) :
    rollAt s n < 100 := by
  have hgap := rollAt_gap s n
  have hpow : (0 : ℚ) < (7 / 10 : ℚ) ^ n := by positivity
  nlinarith

/-- C6: starting from any state whose filtered roll value is below 100,
repeating `update (100, 0, 0); sample` yields a filtered roll sequence that
is monotonically non-decreasing, never exceeds 100, and converges to 100
(each step computes `filtered = filtered * (1 - 0.3) + raw * 0.3`). -/
theorem c6_filter_convergence (s : SensorData) (h : s.roll < 100) :
    (∀ n : Nat, rollAt s n ≤ rollAt s (n + 1)) ∧
    (∀ n : Nat, rollAt s n ≤ 100) ∧
    Filter.Tendsto (fun n : Nat => ((rollAt s n : ℚ) : ℝ))
      Filter.atTop (nhds 100) := by
  refine ⟨?_, ?_, ?_⟩
  · intro n
    have hlt := rollAt_lt s h n
    rw [rollAt_succ]
    nlinarith
  · intro n
    exact (rollAt_lt s h n).le
  · have hval : ∀ n : Nat, ((rollAt s n : ℚ) : ℝ) =
        100 - (7 / 10 : ℝ) ^ n * (100 - ((s.roll : ℚ) : ℝ)) := by
      intro n
      have hgap := rollAt_gap s n
      have hcast : ((100 - rollAt s n : ℚ) : ℝ) =
          (((7 / 10 : ℚ) ^ n * (100 - s.roll) : ℚ) : ℝ) := by rw [hgap]
      push_cast at hcast
      linarith
    have hpow : Filter.Tendsto (fun n : Nat => (7 / 10 : ℝ) ^ n)
        Filter.atTop (nhds 0) :=
      tendsto_pow_atTop_nhds_zero_of_lt_one (by norm_num) (by norm_num)
    have hmain : Filter.Tendsto
        (fun n : Nat => 100 - (7 / 10 : ℝ) ^ n * (100 - ((s.roll : ℚ) : ℝ)))
        Filter.atTop (nhds 100) := by
      have h2 := (hpow.mul_const (100 - ((s.roll : ℚ) : ℝ))).const_sub (100 : ℝ)
      simpa using h2
    exact hmain.congr (fun n => (hval n).symm)

/-- Witness for C6: the convergence theorem applied to the freshly
initialized state, whose filter starts at roll 0 (below 100). -/
theorem c6_filter_convergence_witness :
    SensorData.init.roll < 100 ∧
    ((∀ n : Nat, rollAt SensorData.init n ≤ rollAt SensorData.init (n + 1)) ∧
     (∀ n : Nat, rollAt SensorData.init n ≤ 100) ∧
     Filter.Tendsto (fun n : Nat => ((rollAt SensorData.init n : ℚ) : ℝ))
       Filter.atTop (nhds 100)) :=
  ⟨by norm_num [SensorData.init],
   c6_filter_convergence SensorData.init (by norm_num [SensorData.init])⟩

/-- C7 counterexample: the claim puts every converted angle in the
half-open interval `(-180, 180]`, but the int16 value `-32768` (bytes
`0x00 0x80`) converts to exactly `-180`, which is outside `(-180, 180]`. -/
theorem c7_counterexample :
    wit_angle (toInt16 0x00 0x80) = -180 ∧
    toInt16 0x00 0x80 = -32768 ∧
    ¬ (-180 < wit_angle (-32768) ∧ wit_angle (-32768) ≤ 180) := by
  refine ⟨?_, by decide, ?_⟩
  · norm_num [wit_angle, toInt16]
  · rintro ⟨hlt, -⟩
    rw [wit_angle] at hlt
    norm_num at hlt

/-- C7 (amended): for every int16 raw value, the converted angle
`raw / 32768 * 180` lies in the half-open interval `[-180, 180)` — the
conversion maps the full int16 range onto `[-180, 180)`, attaining `-180`
at `raw = -32768` and never attaining `180`. -/
theorem c7_angle_range (raw : ℤ) (h1 : -32768 ≤ raw) (h2 : raw ≤ 32767) :
    -180 ≤ wit_angle raw ∧ wit_angle raw < 180 := by
  rw [wit_angle]
  have hq1 : (-32768 : ℚ) ≤ (raw : ℚ) := by exact_mod_cast h1
  have hq2 : (raw : ℚ) ≤ 32767 := by exact_mod_cast h2
  constructor
  · rw [div_mul_eq_mul_div, le_div_iff₀ (by norm_num : (0 : ℚ) < 32768)]
    nlinarith
  · rw [div_mul_eq_mul_div, div_lt_iff₀ (by norm_num : (0 : ℚ) < 32768)]
    nlinarith

/-- Witness for C7 (amended): the range theorem applied at `raw = 16384`
(the known 90-degree vector). -/
theorem c7_angle_range_witness :
    -180 ≤ wit_angle 16384 ∧ wit_angle 16384 < 180 :=
  c7_angle_range 16384 (by decide) (by decide)

/-- `maxsize` of the reading queue in `arena_alter_clinkz.IMUManager`. -/
def QUEUE_MAX : Nat := 3

/-- The BLE notification callback of `arena_alter_clinkz.run_bluetooth`:
decode the buffer; if a reading was found and the queue is full
(`length = maxsize = 3`), first drop the oldest entry (`get_nowait`), then
enqueue the new reading (`put_nowait`). Both queue operations are the
non-blocking variants, and the model is a total function: the producer
callback never blocks. -/
def clinkzCallback (q : List (ℚ × ℚ × ℚ)) (data : List Nat) : List (ℚ × ℚ × ℚ) :=
  match decode_witmotion data with
  | none => q
  | some angles => (if q.length = QUEUE_MAX then q.tail else q) ++ [angles]

/-- C9: the bounded-queue producer callback keeps the queue length at most
3 (so `put_nowait` never hits a full queue and the producer never blocks);
when the queue is full it drops the oldest entry before enqueuing, and over
any sequence of delivered buffers the queue stays within capacity. -/
theorem c9_bounded_queue :
    (∀ (q : List (ℚ × ℚ × ℚ)) (data : List Nat),
      q.length ≤ 3 → (clinkzCallback q data).length ≤ 3) ∧
    (∀ (q : List (ℚ × ℚ × ℚ)) (data : List Nat) (a : ℚ × ℚ × ℚ),
      q.length = 3 → decode_witmotion data = some a →
      clinkzCallback q data = q.tail ++ [a]) ∧
    (∀ bufs : List (List Nat),
      (List.foldl clinkzCallback [] bufs).length ≤ 3) := by
  have hstep : ∀ (q : List (ℚ × ℚ × ℚ)) (data : List Nat),
      q.length ≤ 3 → (clinkzCallback q data).length ≤ 3 := by
    intro q data hq
    rw [clinkzCallback]
    cases hdec : decode_witmotion data with
    | none => exact hq
    | some a =>
      by_cases hfull : q.length = QUEUE_MAX
      · rw [if_pos hfull]
        have h3 : q.length = 3 := hfull
        simp only [List.length_append, List.length_tail, List.length_cons,
          List.length_nil]
        omega
      · rw [if_neg hfull]
        have h3 : q.length ≠ 3 := hfull
        simp only [List.length_append, List.length_cons, List.length_nil]
        omega
  refine ⟨hstep, ?_, ?_⟩
  · intro q data a hq hdec
    rw [clinkzCallback, hdec]
    rw [if_pos (by rw [hq]; rfl)]
  · intro bufs
    have hfold : ∀ (q : List (ℚ × ℚ × ℚ)), q.length ≤ 3 →
        (List.foldl clinkzCallback q bufs).length ≤ 3 := by
      induction bufs with
      | nil => intro q hq; exact hq
      | cons b bs ih =>
        intro q hq
        exact ih _ (hstep q b hq)
    exact hfold [] (by decide)

/-- Witness for C9: a full queue of three readings receiving the decoded
frame `(90, 0, -90)` drops its oldest entry `(1, 1, 1)` and appends the new
reading, staying at length 3. -/
theorem c9_bounded_queue_witness :
    clinkzCallback [(1, 1, 1), (2, 2, 2), (3, 3, 3)]
        [0x55, 0x61, 0x00, 0x40, 0x00, 0x00, 0x00, 0xC0] =
      [(2, 2, 2), (3, 3, 3)] ++ [(90, 0, -90)] :=
  c9_bounded_queue.2.1 [(1, 1, 1), (2, 2, 2), (3, 3, 3)]
    [0x55, 0x61, 0x00, 0x40, 0x00, 0x00, 0x00, 0xC0] (90, 0, -90)
    rfl (by rw [decode_witmotion, if_pos ⟨rfl, rfl⟩]; norm_num [angleOf, toInt16, wit_angle])

/-- The smoothing window size of the Qwen variant
(`SensorData(smoothing_window=5)`). -/
def SMOOTHING_WINDOW : Nat := 5

/-- Appending to a Python `deque` with `maxlen = 5`: push on the right and,
when the buffer exceeds the limit, discard from the left. -/
def dequeAppend (buf : List ℚ) (x : ℚ) : List ℚ :=
  let b := buf ++ [x]
  if SMOOTHING_WINDOW < b.length then b.drop (b.length - SMOOTHING_WINDOW) else b

/-- The `SensorData` of `Qwen_python_20260212_ot0jub0wu.py`: smoothed
angles, calibration offsets, the `new_data` flag, and one ring buffer per
axis for the moving average. -/
structure QwenSensorData where
  roll : ℚ
  pitch : ℚ
  yaw : ℚ
  offset_r : ℚ
  offset_p : ℚ
  offset_y : ℚ
  new_data : Bool
  roll_buffer : List ℚ
  pitch_buffer : List ℚ
  yaw_buffer : List ℚ

/-- `SensorData.__init__(smoothing_window=5)` of the Qwen variant: angles
and offsets start at 0 and each ring buffer is pre-filled with five zeros
(`deque([0.0] * smoothing_window, maxlen=smoothing_window)`). -/
def qwenInit : QwenSensorData :=
  { roll := 0, pitch := 0, yaw := 0,
    offset_r := 0, offset_p := 0, offset_y := 0,
    new_data := false,
    roll_buffer := List.replicate SMOOTHING_WINDOW 0,
    pitch_buffer := List.replicate SMOOTHING_WINDOW 0,
    yaw_buffer := List.replicate SMOOTHING_WINDOW 0 }

/-- `SensorData.add_raw_angles(roll, pitch, yaw)` of the Qwen variant:
append the raw reading to each ring buffer, recompute each smoothed angle
as `sum(buffer) / len(buffer)`, and raise `new_data`. -/
def QwenSensorData.add_raw_angles (s : QwenSensorData) (roll pitch yaw : ℚ) :
    QwenSensorData :=
  let rb := dequeAppend s.roll_buffer roll
  let pb := dequeAppend s.pitch_buffer pitch
  let yb := dequeAppend s.yaw_buffer yaw
  { s with
    roll_buffer := rb, pitch_buffer := pb, yaw_buffer := yb,
    roll := rb.sum / (rb.length : ℚ),
    pitch := pb.sum / (pb.length : ℚ),
    yaw := yb.sum / (yb.length : ℚ),
    new_data := true }

/-- A sequence of `add_raw_angles` calls, one per raw reading. -/
def qwenPushAll (s : QwenSensorData) (xs : List (ℚ × ℚ × ℚ)) : QwenSensorData :=
  List.foldl (fun t v => t.add_raw_angles v.1 v.2.1 v.2.2) s xs

theorem dequeAppend_full (buf : List ℚ) (x : ℚ) (h : buf.length = 5) :
    dequeAppend buf x = buf.tail ++ [x] := by
  rw [dequeAppend]
  simp only [List.length_append, List.length_cons, List.length_nil, h]
  rw [if_pos (by rw [SMOOTHING_WINDOW]; omega)]
  rcases buf with _ | ⟨b, rest⟩
  · simp at h
  · simp only [List.cons_append, List.tail_cons]
    rw [show (5 + (0 + 1) - SMOOTHING_WINDOW) = 1 by rw [SMOOTHING_WINDOW]]
    rw [List.drop_one, List.tail_cons]

theorem qwenPushAll_roll_buffer (xs : List (ℚ × ℚ × ℚ)) (s : QwenSensorData)
    (h : s.roll_buffer.length = 5) :
    (qwenPushAll s xs).roll_buffer =
      (s.roll_buffer ++ xs.map (fun v => v.1)).drop xs.length := by
  induction xs generalizing s with
  | nil => simp [qwenPushAll]
  | cons v vs ih =>
    rw [qwenPushAll, List.foldl_cons]
    have hbuf : (s.add_raw_angles v.1 v.2.1 v.2.2).roll_buffer =
        s.roll_buffer.tail ++ [v.1] := by
      rw [QwenSensorData.add_raw_angles]
      exact dequeAppend_full s.roll_buffer v.1 h
    have hlen : (s.add_raw_angles v.1 v.2.1 v.2.2).roll_buffer.length = 5 := by
      rw [hbuf]
      simp only [List.length_append, List.length_tail, List.length_cons,
        List.length_nil, h]
    have := ih (s.add_raw_angles v.1 v.2.1 v.2.2) hlen
    rw [qwenPushAll] at this
    rw [this, hbuf]
    rcases hb : s.roll_buffer with _ | ⟨b, rest⟩
    · rw [hb] at h; simp at h
    · simp only [List.tail_cons, List.map_cons, List.length_cons,
        List.cons_append, List.append_assoc, List.nil_append]
      rw [List.drop_succ_cons]

theorem qwenPushAll_roll_length (xs : List (ℚ × ℚ × ℚ)) :
    (qwenPushAll qwenInit xs).roll_buffer.length = 5 := by
  rw [qwenPushAll_roll_buffer xs qwenInit (by rfl)]
  simp only [List.length_drop, List.length_append, List.length_map]
  rw [show (qwenInit.roll_buffer.length) = 5 by rfl]
  omega

theorem dequeAppend_length (buf : List ℚ) (x : ℚ) (h : buf.length = 5) :
    (dequeAppend buf x).length = 5 := by
  rw [dequeAppend_full buf x h]
  simp only [List.length_append, List.length_tail, List.length_cons,
    List.length_nil, h]

theorem qwenPushAll_lengths (xs : List (ℚ × ℚ × ℚ)) (s : QwenSensorData)
    (h1 : s.roll_buffer.length = 5) (h2 : s.pitch_buffer.length = 5)
    (h3 : s.yaw_buffer.length = 5) :
    (qwenPushAll s xs).roll_buffer.length = 5 ∧
    (qwenPushAll s xs).pitch_buffer.length = 5 ∧
    (qwenPushAll s xs).yaw_buffer.length = 5 := by
  induction xs generalizing s with
  | nil => exact ⟨h1, h2, h3⟩
  | cons v vs ih =>
    rw [qwenPushAll, List.foldl_cons]
    exact ih (s.add_raw_angles v.1 v.2.1 v.2.2)
      (dequeAppend_length _ _ h1) (dequeAppend_length _ _ h2)
      (dequeAppend_length _ _ h3)

theorem qwenPushAll_roll_mean (xs : List (ℚ × ℚ × ℚ)) (s : QwenSensorData)
    (hlen : s.roll_buffer.length = 5)
    (hroll : s.roll = s.roll_buffer.sum / 5) :
    (qwenPushAll s xs).roll = (qwenPushAll s xs).roll_buffer.sum / 5 := by
  induction xs generalizing s with
  | nil => exact hroll
  | cons v vs ih =>
    rw [qwenPushAll, List.foldl_cons]
    have hstep : (s.add_raw_angles v.1 v.2.1 v.2.2).roll =
        (s.add_raw_angles v.1 v.2.1 v.2.2).roll_buffer.sum / 5 := by
      show (dequeAppend s.roll_buffer v.1).sum /
          ((dequeAppend s.roll_buffer v.1).length : ℚ) =
        (dequeAppend s.roll_buffer v.1).sum / 5
      rw [dequeAppend_length _ _ hlen]
      norm_num
    exact ih (s.add_raw_angles v.1 v.2.1 v.2.2) (dequeAppend_length _ _ hlen) hstep

theorem qwenPushAll_pitch_buffer (xs : List (ℚ × ℚ × ℚ)) (s : QwenSensorData)
    (h : s.pitch_buffer.length = 5) :
    (qwenPushAll s xs).pitch_buffer =
      (s.pitch_buffer ++ xs.map (fun v => v.2.1)).drop xs.length := by
  induction xs generalizing s with
  | nil => simp [qwenPushAll]
  | cons v vs ih =>
    rw [qwenPushAll, List.foldl_cons]
    have hbuf : (s.add_raw_angles v.1 v.2.1 v.2.2).pitch_buffer =
        s.pitch_buffer.tail ++ [v.2.1] := by
      rw [QwenSensorData.add_raw_angles]
      exact dequeAppend_full s.pitch_buffer v.2.1 h
    have hlen : (s.add_raw_angles v.1 v.2.1 v.2.2).pitch_buffer.length = 5 := by
      rw [hbuf]
      simp only [List.length_append, List.length_tail, List.length_cons,
        List.length_nil, h]
    have := ih (s.add_raw_angles v.1 v.2.1 v.2.2) hlen
    rw [qwenPushAll] at this
    rw [this, hbuf]
    rcases hb : s.pitch_buffer with _ | ⟨b, rest⟩
    · rw [hb] at h; simp at h
    · simp only [List.tail_cons, List.map_cons, List.length_cons,
        List.cons_append, List.append_assoc, List.nil_append]
      rw [List.drop_succ_cons]

theorem qwenPushAll_yaw_buffer (xs : List (ℚ × ℚ × ℚ)) (s : QwenSensorData)
    (h : s.yaw_buffer.length = 5) :
    (qwenPushAll s xs).yaw_buffer =
      (s.yaw_buffer ++ xs.map (fun v => v.2.2)).drop xs.length := by
  induction xs generalizing s with
  | nil => simp [qwenPushAll]
  | cons v vs ih =>
    rw [qwenPushAll, List.foldl_cons]
    have hbuf : (s.add_raw_angles v.1 v.2.1 v.2.2).yaw_buffer =
        s.yaw_buffer.tail ++ [v.2.2] := by
      rw [QwenSensorData.add_raw_angles]
      exact dequeAppend_full s.yaw_buffer v.2.2 h
    have hlen : (s.add_raw_angles v.1 v.2.1 v.2.2).yaw_buffer.length = 5 := by
      rw [hbuf]
      simp only [List.length_append, List.length_tail, List.length_cons,
        List.length_nil, h]
    have := ih (s.add_raw_angles v.1 v.2.1 v.2.2) hlen
    rw [qwenPushAll] at this
    rw [this, hbuf]
    rcases hb : s.yaw_buffer with _ | ⟨b, rest⟩
    · rw [hb] at h; simp at h
    · simp only [List.tail_cons, List.map_cons, List.length_cons,
        List.cons_append, List.append_assoc, List.nil_append]
      rw [List.drop_succ_cons]

theorem qwenPushAll_pitch_mean (xs : List (ℚ × ℚ × ℚ)) (s : QwenSensorData)
    (hlen : s.pitch_buffer.length = 5)
    (hpitch : s.pitch = s.pitch_buffer.sum / 5) :
    (qwenPushAll s xs).pitch = (qwenPushAll s xs).pitch_buffer.sum / 5 := by
  induction xs generalizing s with
  | nil => exact hpitch
  | cons v vs ih =>
    rw [qwenPushAll, List.foldl_cons]
    have hstep : (s.add_raw_angles v.1 v.2.1 v.2.2).pitch =
        (s.add_raw_angles v.1 v.2.1 v.2.2).pitch_buffer.sum / 5 := by
      show (dequeAppend s.pitch_buffer v.2.1).sum /
          ((dequeAppend s.pitch_buffer v.2.1).length : ℚ) =
        (dequeAppend s.pitch_buffer v.2.1).sum / 5
      rw [dequeAppend_length _ _ hlen]
      norm_num
    exact ih (s.add_raw_angles v.1 v.2.1 v.2.2) (dequeAppend_length _ _ hlen) hstep

theorem qwenPushAll_yaw_mean (xs : List (ℚ × ℚ × ℚ)) (s : QwenSensorData)
    (hlen : s.yaw_buffer.length = 5)
    (hyaw : s.yaw = s.yaw_buffer.sum / 5) :
    (qwenPushAll s xs).yaw = (qwenPushAll s xs).yaw_buffer.sum / 5 := by
  induction xs generalizing s with
  | nil => exact hyaw
  | cons v vs ih =>
    rw [qwenPushAll, List.foldl_cons]
    have hstep : (s.add_raw_angles v.1 v.2.1 v.2.2).yaw =
        (s.add_raw_angles v.1 v.2.1 v.2.2).yaw_buffer.sum / 5 := by
      show (dequeAppend s.yaw_buffer v.2.2).sum /
          ((dequeAppend s.yaw_buffer v.2.2).length : ℚ) =
        (dequeAppend s.yaw_buffer v.2.2).sum / 5
      rw [dequeAppend_length _ _ hlen]
      norm_num
    exact ih (s.add_raw_angles v.1 v.2.1 v.2.2) (dequeAppend_length _ _ hlen) hstep

/-- C10: in the moving-average variant the three smoothing ring buffers
start pre-filled with five zeros; every reachable state keeps exactly 5
entries per buffer; the very first `add_raw_angles (r, p, y)` on a fresh
state produces the smoothed output `(r/5, p/5, y/5)` (biased toward zero by
the zero pre-fill); each of the three buffers always holds the last 5
entries of its zero-padded input stream; and each smoothed angle — roll,
pitch and yaw — is always the arithmetic mean (sum divided by 5) of its
buffer's entries. -/
theorem c10_moving_average :
    (qwenInit.roll_buffer = List.replicate 5 0 ∧
     qwenInit.pitch_buffer = List.replicate 5 0 ∧
     qwenInit.yaw_buffer = List.replicate 5 0) ∧
    (∀ xs : List (ℚ × ℚ × ℚ),
      (qwenPushAll qwenInit xs).roll_buffer.length = 5 ∧
      (qwenPushAll qwenInit xs).pitch_buffer.length = 5 ∧
      (qwenPushAll qwenInit xs).yaw_buffer.length = 5) ∧
    (∀ r p y : ℚ,
      (qwenInit.add_raw_angles r p y).roll = r / 5 ∧
      (qwenInit.add_raw_angles r p y).pitch = p / 5 ∧
      (qwenInit.add_raw_angles r p y).yaw = y / 5) ∧
    (∀ xs : List (ℚ × ℚ × ℚ),
      (qwenPushAll qwenInit xs).roll_buffer =
        (List.replicate 5 (0 : ℚ) ++ xs.map (fun v : ℚ × ℚ × ℚ => v.1)).drop
          xs.length ∧
      (qwenPushAll qwenInit xs).pitch_buffer =
        (List.replicate 5 (0 : ℚ) ++ xs.map (fun v : ℚ × ℚ × ℚ => v.2.1)).drop
          xs.length ∧
      (qwenPushAll qwenInit xs).yaw_buffer =
        (List.replicate 5 (0 : ℚ) ++ xs.map (fun v : ℚ × ℚ × ℚ => v.2.2)).drop
          xs.length) ∧
    (∀ xs : List (ℚ × ℚ × ℚ),
      (qwenPushAll qwenInit xs).roll =
        (qwenPushAll qwenInit xs).roll_buffer.sum / 5 ∧
      (qwenPushAll qwenInit xs).pitch =
        (qwenPushAll qwenInit xs).pitch_buffer.sum / 5 ∧
      (qwenPushAll qwenInit xs).yaw =
        (qwenPushAll qwenInit xs).yaw_buffer.sum / 5) := by
  refine ⟨⟨rfl, rfl, rfl⟩, ?_, ?_, ?_, ?_⟩
  · intro xs
    exact qwenPushAll_lengths xs qwenInit rfl rfl rfl
  · intro r p y
    refine ⟨?_, ?_, ?_⟩ <;>
      · show (dequeAppend (List.replicate SMOOTHING_WINDOW 0) _).sum /
            ((dequeAppend (List.replicate SMOOTHING_WINDOW 0) _).length : ℚ) = _
        rw [dequeAppend_full _ _ (by rfl)]
        show (List.sum ([0, 0, 0, 0] ++ [_]) : ℚ) / _ = _
        norm_num [SMOOTHING_WINDOW]
  · intro xs
    exact ⟨qwenPushAll_roll_buffer xs qwenInit rfl,
           qwenPushAll_pitch_buffer xs qwenInit rfl,
           qwenPushAll_yaw_buffer xs qwenInit rfl⟩
  · intro xs
    exact ⟨qwenPushAll_roll_mean xs qwenInit rfl (by norm_num [qwenInit]),
           qwenPushAll_pitch_mean xs qwenInit rfl (by norm_num [qwenInit]),
           qwenPushAll_yaw_mean xs qwenInit rfl (by norm_num [qwenInit])⟩
